import Mathlib

/-!
Verification of the Prediction & Market-Sync Controller of the realvalueAI
single-page client (source: the React component `PricePredictorPage`).

The development shallowly embeds the client-side orchestration logic:
  * the option loader `fetchOptions` (load dropdown options, fallback, defaults),
  * the market sync engine `fetchMarketData` (split into the synchronous
    start phase and the response-resolution phase, so that overlapping
    in-flight requests can be interleaved as event traces),
  * the submission handler `handleSubmit` with its inline square-footage
    validation (embedded as `validateSqft`) and the `POST /predict` call,
  * the city normalizer `normalizeCity`
    (`s.toLowerCase().replace(/\b0+(\d+)\b/g, regex-dollar-1).trim()`).

JavaScript semantics needed by the source are embedded explicitly:
string falsiness (`jsOrStr`), `Number(...)` coercion on strings
(`jsNumber`, covering whitespace trimming, signed decimal/exponent
literals, `Infinity`, and hex/octal/binary literals), NaN-propagating
comparisons, and the regex character classes `\d`, `\w`, `\s`.
-/

namespace RealValue

/-! ## JavaScript primitive embeddings -/

/-- JS whitespace as used by `String.prototype.trim`, `Number(...)` and the
regex class `\s` (ASCII fragment: TAB, LF, VT, FF, CR, SP). -/
def isJsWs (c : Char) : Bool :=
  c = ' ' || c = '\t' || c = '\n' || c = '\r' || c = '\x0b' || c = '\x0c'

/-- Regex class `\d` = `[0-9]`. -/
def isDigitChar (c : Char) : Bool :=
  '0' ≤ c && c ≤ '9'

/-- Regex word-character class `\w` = `[A-Za-z0-9_]`, which defines the
word boundaries `\b` of the district-number regex. -/
def isJsWordChar (c : Char) : Bool :=
  ('a' ≤ c && c ≤ 'z') || ('A' ≤ c && c ≤ 'Z') || ('0' ≤ c && c ≤ '9') || c = '_'

/-- Per-character `toLowerCase` (basic-latin fragment of the JS Unicode
simple case mapping: `A`..`Z` map to `a`..`z`, everything else is fixed). -/
def lowChar (c : Char) : Char :=
  if h : 65 ≤ c.toNat ∧ c.toNat ≤ 90 then
    ⟨c.val + 32, Or.inl (by
      have h32 : (c.val + 32).toNat = c.toNat + 32 := by
        rw [UInt32.toNat_add]
        have : c.val.toNat + (32 : UInt32).toNat < UInt32.size := by
          have := h.2
          simp only [Char.toNat] at this
          simp [UInt32.size]
          omega
        rw [Nat.mod_eq_of_lt this]
        rfl
      show (c.val + 32).toNat < 55296
      rw [h32]
      have := h.2
      omega)⟩
  else c

/-- JS string-typed `a || b`: the empty string is falsy. -/
def jsOrStr (a b : String) : String :=
  if a = ("") then b else a

/-- JS `m || d` where `m` models a possibly-undefined string
(`none` = `undefined`); both `undefined` and `""` are falsy. -/
def jsOrOpt (m : Option String) (d : String) : String :=
  match m with
  | some s => if s = ("") then d else s
  | none => d

/-- Left part of `String.prototype.trim` on the character list. -/
def trimLeft (l : List Char) : List Char :=
  l.dropWhile isJsWs

/-- Right part of `String.prototype.trim` on the character list. -/
def trimRight (l : List Char) : List Char :=
  (l.reverse.dropWhile isJsWs).reverse

/-- Full `String.prototype.trim`. -/
def jsTrim (l : List Char) : List Char :=
  trimRight (trimLeft l)

/-! ## Data model (the `interface` declarations and `useState` slices) -/

/-- Interface `FormOptions`. -/
structure FormOptions where
  locations : List String
  property_types : List String
  statuses : List String
deriving DecidableEq, Repr

/-- Interface `TopFeature`. -/
structure TopFeature where
  feature : String
  impact : ℚ
deriving DecidableEq, Repr

/-- Interface `PredictionResponse`. -/
structure PredictionResponse where
  predicted_price : ℚ
  shap_image_base64 : String
  top_features : List TopFeature
  base_value : ℚ
deriving DecidableEq, Repr

/-- Interface `MarketInsights`. -/
structure MarketInsights where
  status : String
  selected_city : String
  locations : List String
  median_prices : List ℚ
  counts : List ℚ
deriving DecidableEq, Repr

/-- The `formData` record of raw input strings. -/
structure FormData where
  Sqft : String
  Location : String
  PropertyType : String
  Status : String
deriving DecidableEq, Repr

/-- The component's view state: one field per `useState` slice. -/
structure ComponentState where
  formData : FormData
  formOptions : FormOptions
  formOptionsLoading : Bool
  loading : Bool
  result : Option PredictionResponse
  error : Option String
  sqftError : Option String
  marketData : Option MarketInsights
  marketLoading : Bool
  marketError : Option String
  shapImgError : Bool
deriving DecidableEq, Repr

/-- The `useState` initializers. -/
def initialState : ComponentState where
  formData := { Sqft := "", Location := "", PropertyType := "", Status := "" }
  formOptions := { locations := [], property_types := [], statuses := [] }
  formOptionsLoading := true
  loading := false
  result := none
  error := none
  sqftError := none
  marketData := none
  marketLoading := false
  marketError := none
  shapImgError := false

/-- Result of an awaited `fetch`: a parsed success body (`res.ok` with
JSON payload), a non-success response (`res.ok` false), or a thrown
network error carrying an optional `err.message`. -/
inductive FetchOutcome (α : Type) where
  | ok (data : α)
  | httpError
  | networkError (msg : Option String)
deriving DecidableEq, Repr

/-! ## Option Loader (`fetchOptions`, effect body of the mount `useEffect`) -/

/-- Boolean list-prefix test (used to embed anchored regex fragments). -/
def listStartsWith : List Char → List Char → Bool
  | [], _ => true
  | _ :: _, [] => false
  | a :: as, b :: bs => a = b && listStartsWith as bs

/-- Boolean contiguous-sublist test (unanchored regex `test`). -/
def isSubstr (n : List Char) : List Char → Bool
  | [] => n.isEmpty
  | c :: t => listStartsWith n (c :: t) || isSubstr n t

/-- Test of `/colombo\s*3$/i`: case-insensitively, the string ends with
`colombo`, then optional whitespace, then the final character `3`. -/
def colombo3Test (s : String) : Bool :=
  match (s.data.map lowChar).reverse with
  | '3' :: rest => listStartsWith (("obmoloc").data) (rest.dropWhile isJsWs)
  | _ => false

/-- Test of `/office/i`. -/
def officeTest (s : String) : Bool :=
  isSubstr (("office").data) (s.data.map lowChar)

/-- Test of `/rent/i`. -/
def rentTest (s : String) : Bool :=
  isSubstr (("rent").data) (s.data.map lowChar)

/-- Derived default location on the success path:
`data.locations.find(l => /colombo\s*3$/i.test(l)) || data.locations[0] || ''`. -/
def defaultLocationOf (d : FormOptions) : String :=
  jsOrStr ((d.locations.find? colombo3Test).getD ("")) (jsOrStr (d.locations.headD ("")) (""))

/-- Derived default property type on the success path. -/
def defaultTypeOf (d : FormOptions) : String :=
  jsOrStr ((d.property_types.find? officeTest).getD ("")) (jsOrStr (d.property_types.headD ("")) (""))

/-- Derived default status on the success path. -/
def defaultStatusOf (d : FormOptions) : String :=
  jsOrStr ((d.statuses.find? rentTest).getD ("")) (jsOrStr (d.statuses.headD ("")) (""))

/-- The `setFormData(prev => ({...prev, Location: prev.Location || loc, ...}))`
updater used by both branches of `fetchOptions`. -/
def applyDefaults (fd : FormData) (loc ptype status : String) : FormData :=
  { fd with
      Location := jsOrStr fd.Location loc
      PropertyType := jsOrStr fd.PropertyType ptype
      Status := jsOrStr fd.Status status }

/-- The fixed built-in catalog substituted in the `catch` branch
("Fallback to model-matched values if backend unavailable"). -/
def fallbackOptions : FormOptions where
  locations := ["Colombo 01", "Colombo 03", "Colombo 07", "Dehiwala", "Galle", "Kandy",
    "Mount Lavinia", "Negombo", "Nugegoda"]
  property_types := ["Building", "Commercial Property", "Office Space", "Shop", "Warehouse"]
  statuses := ["Rent", "Sale"]

/-- State transformation of one completed run of `fetchOptions`:
on `res.ok` store the returned catalog and apply derived defaults; on a
non-success response do nothing (there is no `else` branch); on a thrown
network error substitute `fallbackOptions` and the fixed defaults.  The
`finally` clause clears `formOptionsLoading` in every case. -/
def fetchOptions (st : ComponentState) (outcome : FetchOutcome FormOptions) : ComponentState :=
  let st' :=
    match outcome with
    | .ok data =>
        { st with
            formOptions := data
            formData := applyDefaults st.formData
              (defaultLocationOf data) (defaultTypeOf data) (defaultStatusOf data) }
    | .httpError => st
    | .networkError _ =>
        { st with
            formOptions := fallbackOptions
            formData := applyDefaults st.formData ("Colombo 03") ("Office Space") ("Rent") }
  { st' with formOptionsLoading := false }

/-! ## Market Sync Engine (`fetchMarketData`, effect body of the input `useEffect`) -/

/-- Message set by the zero-locations success branch. -/
def noDataMsg : String := "No market data found for this category."

/-- Message set by the non-success-response branch. -/
def backendErrorMsg : String := "Backend returned an error. Make sure the backend server is running."

/-- Message set by the `catch` branch. -/
def unreachableMsg : String := "Could not connect to the backend. Make sure it is running on port 8000."

/-- Query parameters built from the current input snapshot
(`sqft: formData.Sqft || '0'`). -/
def marketParams (fd : FormData) : List (String × String) :=
  [(("status"), fd.Status), (("location"), fd.Location),
   (("sqft"), jsOrStr fd.Sqft ("0")), (("property_type"), fd.PropertyType)]

/-- Synchronous start phase of `fetchMarketData`, run when the effect
fires: mark loading, clear the prior market error, issue the request. -/
def marketStart (st : ComponentState) : ComponentState :=
  { st with marketLoading := true, marketError := none }

/-- Resolution phase of `fetchMarketData`: the `then`/`catch`/`finally`
handlers applied when an (arbitrary, possibly superseded) in-flight
request completes.  The source applies the handlers unconditionally:
there is no request-generation tag, cancellation, or staleness check. -/
def marketResolve (st : ComponentState) (outcome : FetchOutcome MarketInsights) : ComponentState :=
  let st' :=
    match outcome with
    | .ok data =>
        if data.locations ≠ [] then { st with marketData := some data }
        else { st with marketData := none, marketError := some noDataMsg }
    | .httpError => { st with marketError := some backendErrorMsg }
    | .networkError _ => { st with marketError := some unreachableMsg }
  { st' with marketLoading := false }

/-- Events of the market-sync flow, used to interleave overlapping
requests: `start` is an input change firing the effect, `resolve` is the
completion of some previously issued request. -/
inductive MarketEvent where
  | start
  | resolve (outcome : FetchOutcome MarketInsights)
deriving DecidableEq, Repr

/-- One event step of the market-sync flow. -/
def marketStep (st : ComponentState) : MarketEvent → ComponentState
  | .start => marketStart st
  | .resolve o => marketResolve st o

/-- A whole event trace of the market-sync flow. -/
def marketRun (st : ComponentState) (evs : List MarketEvent) : ComponentState :=
  evs.foldl marketStep st

/-! ## Input Validator and Prediction Submitter (`handleSubmit`) -/

/-- Value of a JS `number` produced by `Number(string)`: NaN, the two
infinities, or a finite value (modelled exactly as a rational). -/
inductive JsNum where
  | nan
  | posInf
  | negInf
  | num (q : ℚ)
deriving DecidableEq, Repr

/-- JS unary minus on the embedded numbers. -/
def negJs : JsNum → JsNum
  | .nan => .nan
  | .posInf => .negInf
  | .negInf => .posInf
  | .num q => .num (-q)

/-- Numeric value of a digit list in the given base. -/
def digitsToNat (base : ℕ) (l : List ℕ) : ℕ :=
  l.foldl (fun a d => a * base + d) 0

/-- Hex digit value of a character, if any. -/
def hexDigit? (c : Char) : Option ℕ :=
  if '0' ≤ c ∧ c ≤ '9' then some (c.toNat - 48)
  else if 'a' ≤ c ∧ c ≤ 'f' then some (c.toNat - 87)
  else if 'A' ≤ c ∧ c ≤ 'F' then some (c.toNat - 55)
  else none

/-- Octal digit value of a character, if any. -/
def octDigit? (c : Char) : Option ℕ :=
  if '0' ≤ c ∧ c ≤ '7' then some (c.toNat - 48) else none

/-- Binary digit value of a character, if any. -/
def binDigit? (c : Char) : Option ℕ :=
  if c = '0' ∨ c = '1' then some (c.toNat - 48) else none

/-- Decimal digit value of a character. -/
def decDigit (c : Char) : ℕ := c.toNat - 48

/-- Parse a whole character list as digits of the given base
(at least one digit, nothing else), as in `0x` / `0o` / `0b` literals. -/
def parseRadix (base : ℕ) (digit? : Char → Option ℕ) : List ℕ → List Char → Option ℕ
  | acc, [] => if acc.isEmpty then none else some (digitsToNat base acc.reverse)
  | acc, c :: r =>
    match digit? c with
    | some d => parseRadix base digit? (d :: acc) r
    | none => none

/-- Parse a whole character list as an unsigned decimal literal
`digits [. digits] [e|E [sign] digits]` (at least one mantissa digit,
nothing left over), yielding its exact rational value. -/
def parseDecimal (l : List Char) : Option ℚ :=
  let ip := l.takeWhile isDigitChar
  let r1 := l.dropWhile isDigitChar
  let fr :=
    match r1 with
    | '.' :: rest => some (rest.takeWhile isDigitChar, rest.dropWhile isDigitChar)
    | _ => none
  let fp := (fr.map Prod.fst).getD []
  let r2 := (fr.map Prod.snd).getD r1
  if ip.isEmpty ∧ fp.isEmpty then none
  else
    let base : ℚ :=
      if fp.isEmpty then (digitsToNat 10 (ip.map decDigit) : ℚ)
      else
        (digitsToNat 10 (ip.map decDigit) : ℚ) +
          (digitsToNat 10 (fp.map decDigit) : ℚ) / ((10 : ℚ) ^ fp.length)
    match r2 with
    | [] => some base
    | 'e' :: rest | 'E' :: rest =>
        let se :=
          match rest with
          | '+' :: r3 => ((1 : ℤ), r3)
          | '-' :: r3 => ((-1 : ℤ), r3)
          | r3 => ((1 : ℤ), r3)
        if se.2.isEmpty then none
        else if se.2.all isDigitChar then
          some (base * (10 : ℚ) ^ (se.1 * (digitsToNat 10 (se.2.map decDigit) : ℤ)))
        else none
    | _ => none

/-- Unsigned part of a decimal `Number(...)` literal: `Infinity` or a
decimal literal; anything else is NaN. -/
def parseUnsignedDec (l : List Char) : JsNum :=
  if l = ("Infinity").data then .posInf
  else
    match parseDecimal l with
    | some q => .num q
    | none => .nan

/-- Signed decimal part of `Number(...)` (a sign may precede only the
decimal/`Infinity` form, not the radix-prefixed forms). -/
def parseSignedDec (l : List Char) : JsNum :=
  match l with
  | '+' :: r => parseUnsignedDec r
  | '-' :: r => negJs (parseUnsignedDec r)
  | _ => parseUnsignedDec l

/-- JS `Number(string)`: trim whitespace; empty means `0`; `0x`/`0o`/`0b`
radix literals; otherwise an optionally signed decimal or `Infinity`
literal; anything else is NaN. -/
def jsNumber (s : String) : JsNum :=
  match jsTrim s.data with
  | [] => .num 0
  | '0' :: x :: rest =>
      if x = 'x' ∨ x = 'X' then
        match parseRadix 16 hexDigit? [] rest with
        | some n => .num n
        | none => .nan
      else if x = 'o' ∨ x = 'O' then
        match parseRadix 8 octDigit? [] rest with
        | some n => .num n
        | none => .nan
      else if x = 'b' ∨ x = 'B' then
        match parseRadix 2 binDigit? [] rest with
        | some n => .num n
        | none => .nan
      else parseSignedDec ('0' :: x :: rest)
  | t => parseSignedDec t

/-- Field-level message of the empty-input rule. -/
def msgMissing : String := "Please enter the square footage."

/-- Field-level message shared by the NaN rule and the below-minimum rule
(`isNaN(sqftNum) || sqftNum < 50`). -/
def msgMin : String := "Square footage must be at least 50 sqft."

/-- Field-level message of the too-large rule. -/
def msgTooLarge : String := "Value is too large. Please enter a valid size."

/-- Top-level message thrown for a non-success `/predict` response. -/
def msgPredictFail : String := "Failed to get prediction from the backend."

/-- Top-level fallback message of the `catch` branch of `handleSubmit`. -/
def msgUnexpected : String := "An unexpected error occurred."

/-- JS `isNaN(sqftNum) || sqftNum < 50` (NaN comparisons are false). -/
def nanOrBelow50 : JsNum → Bool
  | .nan => true
  | .posInf => false
  | .negInf => true
  | .num q => decide (q < 50)

/-- JS `sqftNum > 1000000`. -/
def above1M : JsNum → Bool
  | .nan => false
  | .posInf => true
  | .negInf => false
  | .num q => decide (1000000 < q)

/-- Outcome of the inline square-footage validation of `handleSubmit`. -/
inductive SqftCheck where
  | invalid (reason : String)
  | valid (n : JsNum)
deriving DecidableEq, Repr

/-- The inline validation sequence of `handleSubmit` (lines 166-178 of
the component): empty check, then `isNaN(sqftNum) || sqftNum < 50`, then
`sqftNum > 1000000`; only then is the numeric value used. -/
def validateSqft (v : String) : SqftCheck :=
  if v = ("") then .invalid msgMissing
  else
    let n := jsNumber v
    if nanOrBelow50 n then .invalid msgMin
    else if above1M n then .invalid msgTooLarge
    else .valid n

/-- Body of the `POST /predict` request. -/
structure PredictRequest where
  Sqft : JsNum
  Location : String
  PropertyType : String
  Status : String
deriving DecidableEq, Repr

/-- One run of `handleSubmit`, returning the new state and the list of
network requests issued.  The handler first clears both error slices,
re-validates the square footage, and on failure returns before any
network activity; on success it marks loading, clears the prior result
and the stale image flag, issues the request, and applies the
`then`/`catch`/`finally` handlers for the given outcome. -/
def handleSubmit (st : ComponentState) (outcome : FetchOutcome PredictionResponse) :
    ComponentState × List PredictRequest :=
  let st0 := { st with sqftError := none, error := none }
  match validateSqft st.formData.Sqft with
  | .invalid reason => ({ st0 with sqftError := some reason }, [])
  | .valid n =>
      let st1 := { st0 with loading := true, result := none, shapImgError := false }
      let req : PredictRequest :=
        { Sqft := n, Location := st.formData.Location,
          PropertyType := st.formData.PropertyType, Status := st.formData.Status }
      match outcome with
      | .ok d => ({ st1 with result := some d, loading := false }, [req])
      | .httpError => ({ st1 with error := some msgPredictFail, loading := false }, [req])
      | .networkError m =>
          ({ st1 with error := some (jsOrOpt m msgUnexpected), loading := false }, [req])

/-! ## City Normalizer (`normalizeCity`)

The source is `s.toLowerCase().replace(/\b0+(\d+)\b/g, dollar-1).trim()`.
The global replace is embedded as a left-to-right scan: a maximal digit
run beginning at a word boundary (`\b`) is a candidate; when the run
ends, it is replaced exactly when it starts with `0`, has at least two
digits (greedy `0+` must leave at least one digit for `(\d+)`), and ends
at a word boundary; the replacement keeps the digits captured by
`(\d+)`, i.e. drops the leading zeros, keeping a single `0` when the run
is all zeros.  Runs not starting at a boundary (inside a word such as
`a03`) and runs followed by a word character (`03a`) cannot match, since
`\b` never holds between two word characters. -/

/-- Replacement text of a matched run: greedy `0+` consumes the leading
zeros and `$1` keeps the rest, so a run of only zeros leaves one `0`. -/
def normRun (run : List Char) : List Char :=
  match run.dropWhile (· == '0') with
  | [] => ['0']
  | r => r

/-- Decide an ended candidate run (one that began at a `\b` boundary):
replaced exactly when the trailing boundary holds, it starts with `0`,
and it has at least two digits. -/
def flushRun (run : List Char) (bAfter : Bool) : List Char :=
  if bAfter ∧ run.head? = some '0' ∧ 2 ≤ run.length then normRun run else run

/-- The scan of the global replace: `run` holds the digits of the
current candidate run, `prevW` whether the previous character was a word
character (false at the start of the string). -/
def repAux : List Char → Bool → List Char → List Char
  | run, _, [] => flushRun run true
  | run, prevW, c :: rest =>
      if isDigitChar c then
        if run.isEmpty && prevW then c :: repAux [] true rest
        else repAux (run ++ [c]) true rest
      else
        flushRun run (!isJsWordChar c) ++ c :: repAux [] (isJsWordChar c) rest

/-- `.replace(/\b0+(\d+)\b/g, dollar-1)` on a character list. -/
def stripLeadingZeros (l : List Char) : List Char :=
  repAux [] false l

/-- `normalizeCity`: lower-case, strip word-bounded leading zeros, trim. -/
def normalizeCity (s : String) : String :=
  String.mk (jsTrim (stripLeadingZeros (s.data.map lowChar)))

/-- Trailing-boundary value at the head of the remainder of the input
(end of string and a non-word character are both boundaries). -/
def boundHead : List Char → Bool
  | [] => true
  | c :: _ => !isJsWordChar c

/-- Continuation of the scan after a candidate run ends. -/
def restPart : List Char → List Char
  | [] => []
  | c :: rest => c :: repAux [] (isJsWordChar c) rest

/-! ## Concrete fixtures used by counterexamples and witnesses -/

/-- A concrete market snapshot (the response of the first-issued request R1). -/
def mkt1 : MarketInsights where
  status := "success"
  selected_city := "Galle"
  locations := ["Galle"]
  median_prices := [250000]
  counts := [12]

/-- A concrete market snapshot (the response of the later-issued request R2). -/
def mkt2 : MarketInsights where
  status := "success"
  selected_city := "Kandy"
  locations := ["Kandy"]
  median_prices := [180000]
  counts := [9]

/-- A successful market response with zero returned locations. -/
def emptyMkt : MarketInsights where
  status := "success"
  selected_city := "Moratuwa"
  locations := []
  median_prices := []
  counts := []

/-- A concrete prediction result. -/
def predSample : PredictionResponse where
  predicted_price := 350000
  shap_image_base64 := "iVBORw0KGgo"
  top_features := [{ feature := "Sqft", impact := 120000 }]
  base_value := 230000

/-- A state holding a previously displayed market snapshot. -/
def staleMarketState : ComponentState :=
  { initialState with marketData := some mkt1 }

/-- A filled form whose square footage fails validation, with a previous
prediction result and a previous top-level error on display. -/
def invalidSqftState : ComponentState :=
  { initialState with
      formData := { Sqft := "abc", Location := "Colombo 03",
                    PropertyType := "Office Space", Status := "Rent" }
      result := some predSample
      error := some msgPredictFail }

/-- A filled form whose square footage passes validation, with a previous
prediction result on display. -/
def validSqftState : ComponentState :=
  { initialState with
      formData := { Sqft := "1200", Location := "Colombo 03",
                    PropertyType := "Office Space", Status := "Rent" }
      result := some predSample }

/-! ## Claim theorems -/

/-- Claim C1 (code bug): the Market Sync Engine has no supersession
guard, so a stale in-flight response does overwrite the state produced
by the latest issued request.  Trace: request R1 is issued, request R2
is issued while R1 is in flight, R2 resolves with `mkt2`, then R1
resolves with `mkt1` — the displayed snapshot ends as R1's `mkt1`, not
R2's `mkt2`, contradicting the claimed anti-stale-overwrite property. -/
theorem c1_stale_response_overwrites :
    (marketRun initialState
      [.start, .start, .resolve (.ok mkt2), .resolve (.ok mkt1)]).marketData = some mkt1
    ∧ mkt1 ≠ mkt2 := by
  exact ⟨rfl, by decide⟩

/-- Claim C2 (counterexample): a completed initialization whose fetch
returned a non-success response leaves all three option lists empty —
the `res.ok` conditional has no `else` branch, so only the thrown-error
path substitutes the built-in catalog. -/
theorem c2_counterexample :
    (fetchOptions initialState .httpError).formOptionsLoading = false
    ∧ (fetchOptions initialState .httpError).formOptions.locations = []
    ∧ (fetchOptions initialState .httpError).formOptions.property_types = []
    ∧ (fetchOptions initialState .httpError).formOptions.statuses = [] := by
  exact ⟨rfl, rfl, rfl, rfl⟩

/-- Claim C2 (amended): after the single initialization attempt
completes, the loading flag is cleared in every case; a thrown network
error substitutes the fixed built-in catalog, whose three option lists
are all non-empty; a non-success response leaves the catalog unchanged
(hence still empty when initial); a success stores the server catalog
as-is. -/
theorem c2_options_after_init (st : ComponentState) (m : Option String) (d : FormOptions) :
    (fetchOptions st (.networkError m)).formOptions.locations ≠ []
    ∧ (fetchOptions st (.networkError m)).formOptions.property_types ≠ []
    ∧ (fetchOptions st (.networkError m)).formOptions.statuses ≠ []
    ∧ (fetchOptions st (.networkError m)).formOptionsLoading = false
    ∧ (fetchOptions st .httpError).formOptions = st.formOptions
    ∧ (fetchOptions st .httpError).formOptionsLoading = false
    ∧ (fetchOptions st (.ok d)).formOptions = d
    ∧ (fetchOptions st (.ok d)).formOptionsLoading = false := by
  refine ⟨?_, ?_, ?_, rfl, rfl, rfl, rfl, rfl⟩ <;> simp [fetchOptions, fallbackOptions]

/-- Claim C3 (counterexample): the non-numeric rule and the
below-minimum rule return the same invalid result (both produce the
reason of `msgMin`), so validation does not return a distinct result per
rule, and a non-numeric input is not answered with a separate
not-a-number reason. -/
theorem c3_counterexample :
    validateSqft ("abc") = .invalid msgMin ∧ validateSqft ("10") = .invalid msgMin := by
  exact ⟨by decide, by decide⟩

/-- Claim C3 (amended): validation checks the rules in order — empty
input gives the missing-value reason; a NaN coercion, negative infinity,
or a finite value below 50 gives the shared minimum-size reason (one
message for both the non-numeric and below-minimum rules); positive
infinity or a finite value above 1,000,000 gives the too-large reason;
and exactly the finite values in [50, 1,000,000] validate, carrying the
parsed numeric value that permits submission. -/
theorem c3_validation_rules (v : String) :
    (validateSqft v = .invalid msgMissing ↔ v = "")
    ∧ (validateSqft v = .invalid msgMin ↔
        v ≠ "" ∧ (jsNumber v = .nan ∨ jsNumber v = .negInf ∨
          ∃ q, jsNumber v = .num q ∧ q < 50))
    ∧ (validateSqft v = .invalid msgTooLarge ↔
        v ≠ "" ∧ (jsNumber v = .posInf ∨ ∃ q, jsNumber v = .num q ∧ 1000000 < q))
    ∧ (∀ q : ℚ, validateSqft v = .valid (.num q) ↔
        v ≠ "" ∧ jsNumber v = .num q ∧ 50 ≤ q ∧ q ≤ 1000000)
    ∧ (∀ n : JsNum, validateSqft v = .valid n → ∃ q, n = .num q) := by
  have hmm : msgMissing ≠ msgMin := by decide
  have hmt : msgMissing ≠ msgTooLarge := by decide
  have hmt' : msgMin ≠ msgTooLarge := by decide
  by_cases hv : v = ("")
  · subst hv
    refine ⟨by simp [validateSqft], ?_, ?_, ?_, ?_⟩
    · simp [validateSqft, hmm]
    · simp [validateSqft, hmt]
    · intro q; simp [validateSqft]
    · intro n h; simp [validateSqft] at h
  · rcases hn : jsNumber v with _ | _ | _ | q
    · refine ⟨?_, ?_, ?_, ?_, ?_⟩
      · simp [validateSqft, hv, hn, nanOrBelow50, hmm.symm]
      · simp [validateSqft, hv, hn, nanOrBelow50]
      · simp [validateSqft, hv, hn, nanOrBelow50, hmt']
      · intro q; simp [validateSqft, hv, hn, nanOrBelow50]
      · intro n h; simp [validateSqft, hv, hn, nanOrBelow50] at h
    · refine ⟨?_, ?_, ?_, ?_, ?_⟩
      · simp [validateSqft, hv, hn, nanOrBelow50, above1M, hmt.symm]
      · simp [validateSqft, hv, hn, nanOrBelow50, above1M, hmt'.symm]
      · simp [validateSqft, hv, hn, nanOrBelow50, above1M]
      · intro q; simp [validateSqft, hv, hn, nanOrBelow50, above1M]
      · intro n h; simp [validateSqft, hv, hn, nanOrBelow50, above1M] at h
    · refine ⟨?_, ?_, ?_, ?_, ?_⟩
      · simp [validateSqft, hv, hn, nanOrBelow50, hmm.symm]
      · simp [validateSqft, hv, hn, nanOrBelow50]
      · simp [validateSqft, hv, hn, nanOrBelow50, hmt']
      · intro q; simp [validateSqft, hv, hn, nanOrBelow50]
      · intro n h; simp [validateSqft, hv, hn, nanOrBelow50] at h
    · have hval : validateSqft v =
          (if q < 50 then SqftCheck.invalid msgMin
           else if 1000000 < q then SqftCheck.invalid msgTooLarge
           else SqftCheck.valid (JsNum.num q)) := by
        simp [validateSqft, hv, hn, nanOrBelow50, above1M]
      by_cases h50 : q < 50
      · rw [hval, if_pos h50]
        refine ⟨?_, ?_, ?_, ?_, ?_⟩
        · exact iff_of_false (fun h => hmm (SqftCheck.invalid.inj h).symm) hv
        · exact iff_of_true rfl ⟨hv, Or.inr (Or.inr ⟨q, rfl, h50⟩)⟩
        · refine iff_of_false (fun h => hmt' (SqftCheck.invalid.inj h)) ?_
          rintro ⟨-, h | ⟨q', hq', hgt⟩⟩
          · exact JsNum.noConfusion h
          · have hqq : q = q' := JsNum.num.inj hq'
            subst hqq
            linarith
        · intro q'
          refine iff_of_false (fun h => SqftCheck.noConfusion h) ?_
          rintro ⟨-, hq', hge, -⟩
          have hqq : q = q' := JsNum.num.inj hq'
          subst hqq
          linarith
        · intro n h; exact SqftCheck.noConfusion h
      · by_cases h1m : (1000000 : ℚ) < q
        · rw [hval, if_neg h50, if_pos h1m]
          refine ⟨?_, ?_, ?_, ?_, ?_⟩
          · exact iff_of_false (fun h => hmt (SqftCheck.invalid.inj h).symm) hv
          · refine iff_of_false (fun h => hmt' (SqftCheck.invalid.inj h).symm) ?_
            rintro ⟨-, h | h | ⟨q', hq', hlt⟩⟩
            · exact JsNum.noConfusion h
            · exact JsNum.noConfusion h
            · have hqq : q = q' := JsNum.num.inj hq'
              subst hqq
              linarith
          · exact iff_of_true rfl ⟨hv, Or.inr ⟨q, rfl, h1m⟩⟩
          · intro q'
            refine iff_of_false (fun h => SqftCheck.noConfusion h) ?_
            rintro ⟨-, hq', -, hle⟩
            have hqq : q = q' := JsNum.num.inj hq'
            subst hqq
            linarith
          · intro n h; exact SqftCheck.noConfusion h
        · rw [hval, if_neg h50, if_neg h1m]
          refine ⟨?_, ?_, ?_, ?_, ?_⟩
          · exact iff_of_false (fun h => SqftCheck.noConfusion h) hv
          · refine iff_of_false (fun h => SqftCheck.noConfusion h) ?_
            rintro ⟨-, h | h | ⟨q', hq', hlt⟩⟩
            · exact JsNum.noConfusion h
            · exact JsNum.noConfusion h
            · have hqq : q = q' := JsNum.num.inj hq'
              subst hqq
              exact h50 hlt
          · refine iff_of_false (fun h => SqftCheck.noConfusion h) ?_
            rintro ⟨-, h | ⟨q', hq', hgt⟩⟩
            · exact JsNum.noConfusion h
            · have hqq : q = q' := JsNum.num.inj hq'
              subst hqq
              exact h1m hgt
          · intro q'
            constructor
            · intro h
              have hqq : q = q' := JsNum.num.inj (SqftCheck.valid.inj h)
              subst hqq
              exact ⟨hv, rfl, not_lt.mp h50, not_lt.mp h1m⟩
            · rintro ⟨-, hq', -, -⟩
              have hqq : q = q' := JsNum.num.inj hq'
              subst hqq
              rfl
          · intro n h
            exact ⟨q, (SqftCheck.valid.inj h).symm⟩

/-- Claim C5 (confirmed): a submission whose square footage fails
validation issues no network request; the stored prediction result, the
submission loading flag, the image-error flag (and the whole market and
options slices and the form inputs) are unchanged; the field-level error
is set to the validation reason (the top-level error is reset to none,
matching the no-generic-error requirement). -/
theorem c5_invalid_blocks_network (st : ComponentState) (o : FetchOutcome PredictionResponse)
    (reason : String) (h : validateSqft st.formData.Sqft = .invalid reason) :
    (handleSubmit st o).2 = []
    ∧ (handleSubmit st o).1.result = st.result
    ∧ (handleSubmit st o).1.loading = st.loading
    ∧ (handleSubmit st o).1.shapImgError = st.shapImgError
    ∧ (handleSubmit st o).1.sqftError = some reason
    ∧ (handleSubmit st o).1.marketData = st.marketData
    ∧ (handleSubmit st o).1.marketLoading = st.marketLoading
    ∧ (handleSubmit st o).1.marketError = st.marketError
    ∧ (handleSubmit st o).1.formData = st.formData
    ∧ (handleSubmit st o).1.formOptions = st.formOptions
    ∧ (handleSubmit st o).1.error = none := by
  simp [handleSubmit, h]

/-- Claim C5 witness: the concrete invalid submission issues zero
requests and keeps the previously displayed result. -/
theorem c5_witness :
    validateSqft invalidSqftState.formData.Sqft = .invalid msgMin
    ∧ (handleSubmit invalidSqftState (.ok predSample)).2 = []
    ∧ (handleSubmit invalidSqftState (.ok predSample)).1.result = invalidSqftState.result := by
  refine ⟨by decide, ?_, ?_⟩
  · exact (c5_invalid_blocks_network invalidSqftState (.ok predSample) msgMin (by decide)).1
  · exact (c5_invalid_blocks_network invalidSqftState (.ok predSample) msgMin (by decide)).2.1

/-- Claim C6 (counterexample): a market request that ends in a
non-success response does not clear the stored snapshot — the failure
branches of `fetchMarketData` only set the error message, so the
previously displayed snapshot survives. -/
theorem c6_counterexample :
    (marketResolve (marketStart staleMarketState) .httpError).marketData = some mkt1
    ∧ (marketResolve (marketStart staleMarketState) .httpError).marketData ≠ none := by
  exact ⟨rfl, by decide⟩

/-- Claim C6 (amended): on transport failure or a non-success response
the engine reports the matching error condition (backend-error for a
non-success response, backend-unreachable for transport failure), both
distinct from the no-data condition, and clears the loading flag — but
it leaves the stored market snapshot unchanged rather than clearing
it. -/
theorem c6_failure_reporting (st : ComponentState) (m : Option String) :
    (marketResolve (marketStart st) .httpError).marketData = st.marketData
    ∧ (marketResolve (marketStart st) .httpError).marketError = some backendErrorMsg
    ∧ (marketResolve (marketStart st) .httpError).marketLoading = false
    ∧ (marketResolve (marketStart st) (.networkError m)).marketData = st.marketData
    ∧ (marketResolve (marketStart st) (.networkError m)).marketError = some unreachableMsg
    ∧ (marketResolve (marketStart st) (.networkError m)).marketLoading = false
    ∧ backendErrorMsg ≠ noDataMsg
    ∧ unreachableMsg ≠ noDataMsg
    ∧ backendErrorMsg ≠ unreachableMsg := by
  refine ⟨rfl, rfl, rfl, rfl, rfl, rfl, by decide, by decide, by decide⟩

/-- Claim C7 (confirmed): a successful market response with an empty
locations list clears the stored snapshot, reports the no-data
condition, clears the loading flag, and that condition differs from both
backend-failure conditions. -/
theorem c7_no_data_clears_snapshot (st : ComponentState) (d : MarketInsights)
    (h : d.locations = []) :
    (marketResolve (marketStart st) (.ok d)).marketData = none
    ∧ (marketResolve (marketStart st) (.ok d)).marketError = some noDataMsg
    ∧ (marketResolve (marketStart st) (.ok d)).marketLoading = false
    ∧ noDataMsg ≠ backendErrorMsg
    ∧ noDataMsg ≠ unreachableMsg := by
  refine ⟨?_, ?_, ?_, by decide, by decide⟩ <;> simp [marketResolve, marketStart, h]

/-- Claim C7 witness: the concrete zero-locations response clears the
snapshot of a state that had one and reports the no-data condition. -/
theorem c7_witness :
    emptyMkt.locations = []
    ∧ (marketResolve (marketStart staleMarketState) (.ok emptyMkt)).marketData = none
    ∧ (marketResolve (marketStart staleMarketState) (.ok emptyMkt)).marketError = some noDataMsg := by
  refine ⟨rfl, ?_, ?_⟩
  · exact (c7_no_data_clears_snapshot staleMarketState emptyMkt rfl).1
  · exact (c7_no_data_clears_snapshot staleMarketState emptyMkt rfl).2.1

/-- Claim C8 (confirmed): a valid submission issues exactly one request
carrying the parsed square footage and the three categorical fields; the
loading flag is cleared in every outcome; on success the returned result
replaces any previous one with no error and a reset image flag; on a
non-success response or transport failure a top-level message is stored
and the result stays cleared (it was cleared before the request was
issued, so a failed resubmission cannot resurrect the previous one). -/
theorem c8_valid_submission (st : ComponentState) (o : FetchOutcome PredictionResponse)
    (n : JsNum) (h : validateSqft st.formData.Sqft = .valid n) :
    (handleSubmit st o).2 =
      [{ Sqft := n, Location := st.formData.Location,
         PropertyType := st.formData.PropertyType, Status := st.formData.Status }]
    ∧ (handleSubmit st o).1.loading = false
    ∧ (∀ d, o = .ok d →
        (handleSubmit st o).1.result = some d
        ∧ (handleSubmit st o).1.error = none
        ∧ (handleSubmit st o).1.shapImgError = false)
    ∧ (o = .httpError →
        (handleSubmit st o).1.result = none
        ∧ (handleSubmit st o).1.error = some msgPredictFail)
    ∧ (∀ m, o = .networkError m →
        (handleSubmit st o).1.result = none
        ∧ (handleSubmit st o).1.error = some (jsOrOpt m msgUnexpected)) := by
  cases o <;> simp [handleSubmit, h]

/-- Claim C8 witness: the concrete valid submission that fails with a
non-success response stores the failure message and does not resurrect
the previously displayed result. -/
theorem c8_witness :
    validateSqft validSqftState.formData.Sqft = .valid (.num 1200)
    ∧ ((handleSubmit validSqftState .httpError).1.result = none
        ∧ (handleSubmit validSqftState .httpError).1.error = some msgPredictFail) := by
  refine ⟨by decide, ?_⟩
  exact (c8_valid_submission validSqftState .httpError (.num 1200) (by decide)).2.2.2.1 rfl

/-- Claim C9 (confirmed): applying the option-loader defaults never
clobbers a field the user (or a previous application) already set: on
both the success path and the fallback path each of the three selection
fields keeps its exact previous value when non-empty and receives the
computed default only when empty, and the square-footage text is never
touched. -/
theorem c9_defaults_preserve_user_choice (st : ComponentState) (d : FormOptions)
    (m : Option String) :
    ((fetchOptions st (.ok d)).formData.Location =
      if st.formData.Location = ("") then defaultLocationOf d else st.formData.Location)
    ∧ ((fetchOptions st (.ok d)).formData.PropertyType =
      if st.formData.PropertyType = ("") then defaultTypeOf d else st.formData.PropertyType)
    ∧ ((fetchOptions st (.ok d)).formData.Status =
      if st.formData.Status = ("") then defaultStatusOf d else st.formData.Status)
    ∧ ((fetchOptions st (.networkError m)).formData.Location =
      if st.formData.Location = ("") then ("Colombo 03") else st.formData.Location)
    ∧ ((fetchOptions st (.networkError m)).formData.PropertyType =
      if st.formData.PropertyType = ("") then ("Office Space") else st.formData.PropertyType)
    ∧ ((fetchOptions st (.networkError m)).formData.Status =
      if st.formData.Status = ("") then ("Rent") else st.formData.Status)
    ∧ (fetchOptions st (.ok d)).formData.Sqft = st.formData.Sqft
    ∧ (fetchOptions st (.networkError m)).formData.Sqft = st.formData.Sqft := by
  refine ⟨?_, ?_, ?_, ?_, ?_, ?_, rfl, rfl⟩ <;> simp [fetchOptions, applyDefaults, jsOrStr]

/-- Claim C10 (confirmed): every submission attempt first clears the
top-level error: the resulting error never depends on the previously
stored one, and in particular a submission that fails validation leaves
the top-level error cleared, so a backend-failure message from an
earlier submission cannot persist across a later invalid submission. -/
theorem c10_submit_clears_stale_error (st : ComponentState)
    (o : FetchOutcome PredictionResponse) :
    (handleSubmit st o).1.error = (handleSubmit { st with error := none } o).1.error
    ∧ (∀ r, validateSqft st.formData.Sqft = .invalid r → (handleSubmit st o).1.error = none) := by
  constructor
  · rcases hv : validateSqft st.formData.Sqft with r | n <;>
      cases o <;> simp [handleSubmit, hv]
  · intro r h
    simp [handleSubmit, h]

/-- Claim C10 witness: a stored backend-failure message is cleared by a
later invalid submission. -/
theorem c10_witness :
    invalidSqftState.error = some msgPredictFail
    ∧ (handleSubmit invalidSqftState (.ok predSample)).1.error = none := by
  refine ⟨rfl, ?_⟩
  exact (c10_submit_clears_stale_error invalidSqftState (.ok predSample)).2 msgMin (by decide)

/-! ## Normalizer lemmas -/

theorem isJsWs_not_digit {c : Char} (h : isJsWs c = true) : isDigitChar c = false := by
  simp only [isJsWs, Bool.or_eq_true, decide_eq_true_eq] at h
  rcases h with ((((h | h) | h) | h) | h) | h <;> subst h <;> decide

theorem isJsWs_not_word {c : Char} (h : isJsWs c = true) : isJsWordChar c = false := by
  simp only [isJsWs, Bool.or_eq_true, decide_eq_true_eq] at h
  rcases h with ((((h | h) | h) | h) | h) | h <;> subst h <;> decide

theorem lowChar_fixed {c : Char} (h : ¬(65 ≤ c.toNat ∧ c.toNat ≤ 90)) : lowChar c = c :=
  dif_neg h

theorem lowChar_toNat_upper {c : Char} (h : 65 ≤ c.toNat ∧ c.toNat ≤ 90) :
    (lowChar c).toNat = c.toNat + 32 := by
  simp only [lowChar, dif_pos h]
  show (c.val + 32).toNat = c.toNat + 32
  rw [UInt32.toNat_add]
  have hs : c.val.toNat + (32 : UInt32).toNat < UInt32.size := by
    have := h.2
    simp only [Char.toNat] at this
    simp [UInt32.size]
    omega
  rw [Nat.mod_eq_of_lt hs]
  rfl

theorem lowChar_idem (c : Char) : lowChar (lowChar c) = lowChar c := by
  by_cases h : 65 ≤ c.toNat ∧ c.toNat ≤ 90
  · apply lowChar_fixed
    rw [lowChar_toNat_upper h]
    omega
  · rw [lowChar_fixed h]
    exact lowChar_fixed h

theorem map_lowChar_fixed : ∀ {l : List Char}, (∀ c ∈ l, lowChar c = c) → l.map lowChar = l := by
  intro l
  induction l with
  | nil => intro _; rfl
  | cons a t ih =>
      intro h
      simp only [List.map_cons]
      rw [h a (by simp), ih (fun c hc => h c (by simp [hc]))]

theorem dropWhile_eq_self_of_takeWhile_nil {α} {p : α → Bool} {ys : List α}
    (h : ys.takeWhile p = []) : ys.dropWhile p = ys := by
  cases ys with
  | nil => rfl
  | cons y yt =>
      rw [List.takeWhile_cons] at h
      by_cases hp : p y = true
      · rw [if_pos hp] at h
        exact absurd h (by simp)
      · rw [List.dropWhile_cons, if_neg hp]

theorem takeWhile_eq_nil_of_all {α} {p : α → Bool} {l : List α}
    (h : ∀ c ∈ l, p c = false) : l.takeWhile p = [] := by
  cases l with
  | nil => rfl
  | cons a t =>
      rw [List.takeWhile_cons, if_neg]
      rw [h a (List.mem_cons_self a t)]
      simp

theorem takeWhile_eq_self_of_all {α} {p : α → Bool} : ∀ {l : List α},
    (∀ c ∈ l, p c = true) → l.takeWhile p = l := by
  intro l
  induction l with
  | nil => intro _; rfl
  | cons a t ih =>
      intro h
      rw [List.takeWhile_cons, if_pos (h a (List.mem_cons_self a t)),
        ih (fun c hc => h c (List.mem_cons_of_mem a hc))]

theorem dropWhile_eq_nil_of_all {α} {p : α → Bool} : ∀ {l : List α},
    (∀ c ∈ l, p c = true) → l.dropWhile p = [] := by
  intro l
  induction l with
  | nil => intro _; rfl
  | cons a t ih =>
      intro h
      rw [List.dropWhile_cons, if_pos (h a (List.mem_cons_self a t))]
      exact ih (fun c hc => h c (List.mem_cons_of_mem a hc))

theorem head_dropWhile_false {α} {p : α → Bool} : ∀ {l : List α} {a : α} {t : List α},
    l.dropWhile p = a :: t → p a = false := by
  intro l
  induction l with
  | nil => intro a t h; exact absurd h (by simp)
  | cons x xs ih =>
      intro a t h
      rw [List.dropWhile_cons] at h
      by_cases hp : p x = true
      · rw [if_pos hp] at h
        exact ih h
      · rw [if_neg hp] at h
        cases h
        exact Bool.not_eq_true _ ▸ hp

theorem takeWhile_append_none {α} {p : α → Bool} : ∀ (xs : List α) {ys : List α},
    ys.takeWhile p = [] → (xs ++ ys).takeWhile p = xs.takeWhile p := by
  intro xs
  induction xs with
  | nil => intro ys h; simpa using h
  | cons x xt ih =>
      intro ys h
      rw [List.cons_append, List.takeWhile_cons, List.takeWhile_cons]
      by_cases hp : p x = true
      · rw [if_pos hp, if_pos hp, ih h]
      · rw [if_neg hp, if_neg hp]

theorem dropWhile_append_none {α} {p : α → Bool} : ∀ (xs : List α) {ys : List α},
    ys.takeWhile p = [] → (xs ++ ys).dropWhile p = xs.dropWhile p ++ ys := by
  intro xs
  induction xs with
  | nil =>
      intro ys h
      simpa using dropWhile_eq_self_of_takeWhile_nil h
  | cons x xt ih =>
      intro ys h
      rw [List.cons_append, List.dropWhile_cons, List.dropWhile_cons]
      by_cases hp : p x = true
      · rw [if_pos hp, if_pos hp, ih h]
      · rw [if_neg hp, if_neg hp, List.cons_append]

theorem flushRun_nil (b : Bool) : flushRun [] b = [] := by
  simp [flushRun]

theorem normRun_ne_nil (run : List Char) : normRun run ≠ [] := by
  unfold normRun
  split
  · simp
  · next r h => exact h

theorem flushRun_ne_nil {run : List Char} (h : run ≠ []) (b : Bool) : flushRun run b ≠ [] := by
  unfold flushRun
  split
  · exact normRun_ne_nil run
  · exact h

theorem mem_normRun {c : Char} {run : List Char} (hh : run.head? = some '0')
    (h : c ∈ normRun run) : c ∈ run := by
  unfold normRun at h
  split at h
  · simp only [List.mem_singleton] at h
    subst h
    cases run with
    | nil => simp at hh
    | cons a t =>
        simp only [List.head?_cons, Option.some.injEq] at hh
        subst hh
        exact List.mem_cons_self _ _
  · exact (List.dropWhile_sublist (· == '0')).subset h

theorem mem_flushRun {c : Char} {run : List Char} {b : Bool} (h : c ∈ flushRun run b) :
    c ∈ run := by
  unfold flushRun at h
  split at h
  · next hc => exact mem_normRun hc.2.1 h
  · exact h

theorem mem_repAux {c : Char} : ∀ (l run : List Char) (w : Bool),
    c ∈ repAux run w l → c ∈ run ∨ c ∈ l := by
  intro l
  induction l with
  | nil =>
      intro run w h
      exact Or.inl (mem_flushRun h)
  | cons a t ih =>
      intro run w h
      simp only [repAux] at h
      by_cases hd : isDigitChar a = true
      · rw [if_pos hd] at h
        by_cases he : (run.isEmpty && w) = true
        · rw [if_pos he] at h
          rcases List.mem_cons.mp h with rfl | h'
          · exact Or.inr (List.mem_cons_self _ _)
          · rcases ih [] true h' with h'' | h''
            · simp at h''
            · exact Or.inr (List.mem_cons_of_mem _ h'')
        · rw [if_neg he] at h
          rcases ih (run ++ [a]) true h with h' | h'
          · rcases List.mem_append.mp h' with h'' | h''
            · exact Or.inl h''
            · simp only [List.mem_singleton] at h''
              subst h''
              exact Or.inr (List.mem_cons_self _ _)
          · exact Or.inr (List.mem_cons_of_mem _ h')
      · rw [if_neg hd] at h
        rcases List.mem_append.mp h with h' | h'
        · exact Or.inl (mem_flushRun h')
        · rcases List.mem_cons.mp h' with rfl | h''
          · exact Or.inr (List.mem_cons_self _ _)
          · rcases ih [] _ h'' with h3 | h3
            · simp at h3
            · exact Or.inr (List.mem_cons_of_mem _ h3)

theorem repAux_run : ∀ (l run : List Char), run ≠ [] → ∀ w : Bool,
    repAux run w l =
      flushRun (run ++ l.takeWhile isDigitChar) (boundHead (l.dropWhile isDigitChar))
        ++ restPart (l.dropWhile isDigitChar) := by
  intro l
  induction l with
  | nil =>
      intro run hne w
      simp [repAux, boundHead, restPart]
  | cons c rest ih =>
      intro run hne w
      have he : run.isEmpty = false := by
        cases run
        · exact absurd rfl hne
        · rfl
      by_cases hd : isDigitChar c = true
      · have e1 : repAux run w (c :: rest) = repAux (run ++ [c]) true rest := by
          simp only [repAux]
          rw [if_pos hd, if_neg (by simp [he])]
        rw [e1, ih (run ++ [c]) (by simp) true,
          List.takeWhile_cons, if_pos hd, List.dropWhile_cons, if_pos hd,
          List.append_assoc]
        rfl
      · have e2 : repAux run w (c :: rest) =
            flushRun run (!isJsWordChar c) ++ c :: repAux [] (isJsWordChar c) rest := by
          simp only [repAux]
          rw [if_neg hd]
        rw [e2, List.takeWhile_cons, if_neg hd, List.dropWhile_cons, if_neg hd,
          List.append_nil]
        rfl

theorem normRun_eq_of_nil {run : List Char} (h : run.dropWhile (· == '0') = []) :
    normRun run = ['0'] := by
  unfold normRun
  rw [h]

theorem normRun_eq_of_cons {run : List Char} {a : Char} {t : List Char}
    (h : run.dropWhile (· == '0') = a :: t) : normRun run = a :: t := by
  unfold normRun
  rw [h]

theorem normRun_no_match (run : List Char) :
    ¬((normRun run).head? = some '0' ∧ 2 ≤ (normRun run).length) := by
  rintro ⟨hh, hl⟩
  cases hdw : run.dropWhile (· == '0') with
  | nil =>
      rw [normRun_eq_of_nil hdw] at hl
      simp at hl
  | cons a t =>
      rw [normRun_eq_of_cons hdw] at hh
      simp only [List.head?_cons, Option.some.injEq] at hh
      have hfa := head_dropWhile_false hdw
      rw [hh] at hfa
      simp at hfa

theorem flushRun_idem (run : List Char) (b : Bool) :
    flushRun (flushRun run b) b = flushRun run b := by
  by_cases hc : b = true ∧ run.head? = some '0' ∧ 2 ≤ run.length
  · have h1 : flushRun run b = normRun run := by
      unfold flushRun
      rw [if_pos ⟨hc.1, hc.2⟩]
    rw [h1]
    unfold flushRun
    rw [if_neg]
    rintro ⟨hb, hh, hl⟩
    exact normRun_no_match run ⟨hh, hl⟩
  · have h1 : flushRun run b = run := by
      unfold flushRun
      rw [if_neg]
      rintro ⟨hb, hh, hl⟩
      exact hc ⟨hb, hh, hl⟩
    rw [h1]
    exact h1

theorem repAux_nil (run : List Char) (w : Bool) : repAux run w [] = flushRun run true := rfl

theorem repAux_cons_nondigit {c : Char} (hd : isDigitChar c = false) (run : List Char)
    (w : Bool) (rest : List Char) :
    repAux run w (c :: rest) =
      flushRun run (!isJsWordChar c) ++ c :: repAux [] (isJsWordChar c) rest := by
  simp only [repAux]
  rw [if_neg (by simp [hd])]

theorem repAux_cons_digit_copy {c : Char} (hd : isDigitChar c = true) (rest : List Char) :
    repAux [] true (c :: rest) = c :: repAux [] true rest := by
  simp only [repAux]
  rw [if_pos hd, if_pos (by simp)]

theorem repAux_cons_digit_extend {c : Char} (hd : isDigitChar c = true) (run : List Char)
    (w : Bool) (h : run = [] → w = false) (rest : List Char) :
    repAux run w (c :: rest) = repAux (run ++ [c]) true rest := by
  simp only [repAux]
  rw [if_pos hd, if_neg]
  cases run with
  | nil =>
      have := h rfl
      subst this
      simp
  | cons a t => simp

theorem repAux_idem_aux : ∀ (n : ℕ) (l : List Char), l.length ≤ n → ∀ w : Bool,
    repAux [] w (repAux [] w l) = repAux [] w l := by
  intro n
  induction n with
  | zero =>
      intro l hl w
      have hnil : l = [] := List.eq_nil_of_length_eq_zero (Nat.le_zero.mp hl)
      subst hnil
      simp [repAux_nil, flushRun_nil]
  | succ n ih =>
      intro l hl w
      cases l with
      | nil => simp [repAux_nil, flushRun_nil]
      | cons c rest =>
          have hrl : rest.length ≤ n := by
            simp only [List.length_cons] at hl
            omega
          cases hd : isDigitChar c with
          | false =>
              rw [repAux_cons_nondigit hd, flushRun_nil, List.nil_append,
                repAux_cons_nondigit hd, flushRun_nil, List.nil_append]
              exact congrArg (c :: ·) (ih rest hrl (isJsWordChar c))
          | true =>
              cases w with
              | true =>
                  rw [repAux_cons_digit_copy hd, repAux_cons_digit_copy hd]
                  exact congrArg (c :: ·) (ih rest hrl true)
              | false =>
                  rw [repAux_cons_digit_extend hd [] false (fun _ => rfl), List.nil_append]
                  rw [repAux_run rest [c] (by simp) true]
                  have hCD : ∀ x ∈ ([c] ++ rest.takeWhile isDigitChar), isDigitChar x = true := by
                    intro x hx
                    rcases List.mem_append.mp hx with hx' | hx'
                    · simp only [List.mem_singleton] at hx'
                      subst hx'
                      exact hd
                    · exact List.mem_takeWhile_imp hx'
                  cases hAe : rest.dropWhile isDigitChar with
                  | nil =>
                      simp only [boundHead, restPart, List.append_nil]
                      obtain ⟨f₀, ftl, hF⟩ :=
                        List.exists_cons_of_ne_nil
                          (@flushRun_ne_nil ([c] ++ rest.takeWhile isDigitChar) (by simp) true)
                      have hfmem : ∀ x ∈ f₀ :: ftl, isDigitChar x = true := by
                        rw [← hF]
                        intro x hx
                        exact hCD x (mem_flushRun hx)
                      rw [hF]
                      rw [repAux_cons_digit_extend (hfmem f₀ (List.mem_cons_self _ _)) []
                        false (fun _ => rfl) ftl, List.nil_append]
                      rw [repAux_run ftl [f₀] (by simp) true]
                      have hftl : ∀ x ∈ ftl, isDigitChar x = true :=
                        fun x hx => hfmem x (List.mem_cons_of_mem _ hx)
                      rw [takeWhile_eq_self_of_all hftl, dropWhile_eq_nil_of_all hftl]
                      simp only [boundHead, restPart, List.append_nil]
                      rw [List.singleton_append, ← hF]
                      exact flushRun_idem _ _
                  | cons a A' =>
                      simp only [boundHead, restPart]
                      have ha : isDigitChar a = false := head_dropWhile_false hAe
                      obtain ⟨f₀, ftl, hF⟩ :=
                        List.exists_cons_of_ne_nil
                          (@flushRun_ne_nil ([c] ++ rest.takeWhile isDigitChar) (by simp)
                            (!isJsWordChar a))
                      have hfmem : ∀ x ∈ f₀ :: ftl, isDigitChar x = true := by
                        rw [← hF]
                        intro x hx
                        exact hCD x (mem_flushRun hx)
                      rw [hF, List.cons_append]
                      rw [repAux_cons_digit_extend (hfmem f₀ (List.mem_cons_self _ _)) []
                        false (fun _ => rfl), List.nil_append]
                      rw [repAux_run _ [f₀] (by simp) true]
                      have hftl : ∀ x ∈ ftl, isDigitChar x = true :=
                        fun x hx => hfmem x (List.mem_cons_of_mem _ hx)
                      have htw : (a :: repAux [] (isJsWordChar a) A').takeWhile isDigitChar = [] := by
                        rw [List.takeWhile_cons, if_neg (by simp [ha])]
                      rw [takeWhile_append_none ftl htw, takeWhile_eq_self_of_all hftl]
                      rw [dropWhile_append_none ftl htw, dropWhile_eq_nil_of_all hftl,
                        List.nil_append]
                      simp only [boundHead, restPart]
                      have hA' : A'.length ≤ n := by
                        have h1 : (rest.dropWhile isDigitChar).length ≤ rest.length :=
                          List.Sublist.length_le (List.dropWhile_sublist _)
                        rw [hAe] at h1
                        simp only [List.length_cons] at h1
                        omega
                      rw [List.singleton_append, ← hF, flushRun_idem, hF, List.cons_append,
                        ih A' hA' (isJsWordChar a)]

theorem repAux_idem (l : List Char) (w : Bool) :
    repAux [] w (repAux [] w l) = repAux [] w l :=
  repAux_idem_aux l.length l le_rfl w

theorem repAux_ws_append : ∀ (ws : List Char), (∀ c ∈ ws, isJsWs c = true) →
    ∀ (y : List Char) (w : Bool),
    repAux [] w (ws ++ y) = ws ++ repAux [] (if ws = [] then w else false) y := by
  intro ws
  induction ws with
  | nil =>
      intro _ y w
      simp
  | cons s st ih =>
      intro h y w
      have hs : isJsWs s = true := h s (List.mem_cons_self _ _)
      have hd : isDigitChar s = false := isJsWs_not_digit hs
      have hw : isJsWordChar s = false := isJsWs_not_word hs
      rw [List.cons_append, repAux_cons_nondigit hd, flushRun_nil, List.nil_append, hw,
        ih (fun c hc => h c (List.mem_cons_of_mem _ hc)) y false]
      simp

theorem rep_trimLeft_fix {x : List Char} (h : repAux [] false x = x) :
    repAux [] false (trimLeft x) = trimLeft x := by
  have hdec : x.takeWhile isJsWs ++ x.dropWhile isJsWs = x :=
    List.takeWhile_append_dropWhile _ _
  have hws : ∀ c ∈ x.takeWhile isJsWs, isJsWs c = true :=
    fun c hc => List.mem_takeWhile_imp hc
  by_cases he : x.takeWhile isJsWs = []
  · unfold trimLeft
    rw [dropWhile_eq_self_of_takeWhile_nil he]
    exact h
  · have hsplit := repAux_ws_append (x.takeWhile isJsWs) hws (x.dropWhile isJsWs) false
    rw [if_neg he, hdec, h] at hsplit
    have hcan : x.takeWhile isJsWs ++ x.dropWhile isJsWs =
        x.takeWhile isJsWs ++ repAux [] false (x.dropWhile isJsWs) := by
      rw [hdec]
      exact hsplit
    unfold trimLeft
    exact (List.append_cancel_left hcan).symm

theorem digit_block_eq : ∀ (F G : List Char) {a b : Char} {P Q : List Char},
    (∀ c ∈ F, isDigitChar c = true) → (∀ c ∈ G, isDigitChar c = true) →
    isDigitChar a = false → isDigitChar b = false →
    F ++ a :: P = G ++ b :: Q → F = G ∧ a = b ∧ P = Q := by
  intro F
  induction F with
  | nil =>
      intro G a b P Q hF hG ha hb heq
      cases G with
      | nil =>
          simp only [List.nil_append] at heq
          obtain ⟨h1, h2⟩ := List.cons.inj heq
          exact ⟨rfl, h1, h2⟩
      | cons g G' =>
          simp only [List.nil_append, List.cons_append] at heq
          obtain ⟨h1, h2⟩ := List.cons.inj heq
          subst h1
          exact absurd (hG a (List.mem_cons_self _ _)) (by simp [ha])
  | cons f F' ih =>
      intro G a b P Q hF hG ha hb heq
      cases G with
      | nil =>
          simp only [List.cons_append, List.nil_append] at heq
          obtain ⟨h1, h2⟩ := List.cons.inj heq
          subst h1
          exact absurd (hF f (List.mem_cons_self _ _)) (by simp [hb])
      | cons g G' =>
          simp only [List.cons_append] at heq
          obtain ⟨h1, h2⟩ := List.cons.inj heq
          subst h1
          obtain ⟨e1, e2, e3⟩ := ih G' (fun c hc => hF c (List.mem_cons_of_mem _ hc))
            (fun c hc => hG c (List.mem_cons_of_mem _ hc)) ha hb h2
          exact ⟨by rw [e1], e2, e3⟩

theorem repAux_ws_nil_run {run : List Char} {w : Bool} {ws : List Char}
    (hws : ∀ c ∈ ws, isJsWs c = true) (hrun : ∀ c ∈ run, isDigitChar c = true)
    (heq : repAux run w ws = ws) : run = [] := by
  by_contra hne
  rw [repAux_run ws run hne w] at heq
  have htk : ws.takeWhile isDigitChar = [] :=
    takeWhile_eq_nil_of_all (fun c hc => isJsWs_not_digit (hws c hc))
  have hdp : ws.dropWhile isDigitChar = ws :=
    dropWhile_eq_self_of_takeWhile_nil htk
  rw [htk, hdp, List.append_nil] at heq
  obtain ⟨f₀, ftl, hF⟩ :=
    List.exists_cons_of_ne_nil (flushRun_ne_nil hne (boundHead ws))
  have hf₀mem : f₀ ∈ flushRun run (boundHead ws) := by
    rw [hF]
    exact List.mem_cons_self _ _
  have hf₀ : isDigitChar f₀ = true := hrun f₀ (mem_flushRun hf₀mem)
  rw [hF] at heq
  cases ws with
  | nil =>
      simp only [restPart, List.append_nil] at heq
      simp at heq
  | cons s ws' =>
      simp only [restPart, List.cons_append] at heq
      obtain ⟨h1, h2⟩ := List.cons.inj heq
      have hs := isJsWs_not_digit (hws s (List.mem_cons_self _ _))
      rw [h1] at hf₀
      simp [hf₀] at hs

theorem repAux_tail_ws : ∀ (n : ℕ) (y : List Char), y.length ≤ n →
    ∀ (run : List Char) (w : Bool) (ws : List Char),
    (∀ c ∈ ws, isJsWs c = true) → (∀ c ∈ run, isDigitChar c = true) →
    repAux run w (y ++ ws) = y ++ ws → repAux run w y = y := by
  intro n
  induction n with
  | zero =>
      intro y hy run w ws hws hrun heq
      have hnil : y = [] := List.eq_nil_of_length_eq_zero (Nat.le_zero.mp hy)
      subst hnil
      rw [List.nil_append] at heq
      have hr : run = [] := repAux_ws_nil_run hws hrun heq
      subst hr
      simp [repAux_nil, flushRun_nil]
  | succ n ih =>
      intro y hy run w ws hws hrun heq
      cases y with
      | nil =>
          rw [List.nil_append] at heq
          have hr : run = [] := repAux_ws_nil_run hws hrun heq
          subst hr
          simp [repAux_nil, flushRun_nil]
      | cons c y' =>
          have hy' : y'.length ≤ n := by
            simp only [List.length_cons] at hy
            omega
          rw [List.cons_append] at heq
          cases hd : isDigitChar c with
          | false =>
              cases run with
              | nil =>
                  rw [repAux_cons_nondigit hd, flushRun_nil, List.nil_append] at heq
                  obtain ⟨-, h2⟩ := List.cons.inj heq
                  have hrec := ih y' hy' [] (isJsWordChar c) ws hws (by simp) h2
                  rw [repAux_cons_nondigit hd, flushRun_nil, List.nil_append, hrec]
              | cons r rt =>
                  rw [repAux_cons_nondigit hd] at heq
                  obtain ⟨f₀, ftl, hF⟩ :=
                    List.exists_cons_of_ne_nil (@flushRun_ne_nil (r :: rt) (by simp)
                      (!isJsWordChar c))
                  have hf₀ : isDigitChar f₀ = true := by
                    apply hrun
                    apply mem_flushRun (b := !isJsWordChar c)
                    rw [hF]
                    exact List.mem_cons_self _ _
                  rw [hF, List.cons_append] at heq
                  obtain ⟨h1, -⟩ := List.cons.inj heq
                  subst h1
                  simp [hf₀] at hd
          | true =>
              by_cases hcw : run = [] ∧ w = true
              · obtain ⟨rfl, rfl⟩ := hcw
                rw [repAux_cons_digit_copy hd] at heq
                obtain ⟨-, h2⟩ := List.cons.inj heq
                have hrec := ih y' hy' [] true ws hws (by simp) h2
                rw [repAux_cons_digit_copy hd, hrec]
              · have hext : ∀ z, repAux run w (c :: z) = repAux (run ++ [c]) true z := by
                  intro z
                  refine repAux_cons_digit_extend hd run w ?_ z
                  intro hrn
                  cases hwv : w
                  · rfl
                  · exact absurd ⟨hrn, rfl⟩ (hwv ▸ hcw)
                rw [hext] at heq
                rw [hext]
                have hrun' : ∀ x ∈ run ++ [c], isDigitChar x = true := by
                  intro x hx
                  rcases List.mem_append.mp hx with hx' | hx'
                  · exact hrun x hx'
                  · simp only [List.mem_singleton] at hx'
                    subst hx'
                    exact hd
                have hne' : run ++ [c] ≠ [] := by simp
                rw [repAux_run (y' ++ ws) (run ++ [c]) hne' true] at heq
                rw [repAux_run y' (run ++ [c]) hne' true]
                have htkws : ws.takeWhile isDigitChar = [] :=
                  takeWhile_eq_nil_of_all (fun x hx => isJsWs_not_digit (hws x hx))
                rw [takeWhile_append_none y' htkws, dropWhile_append_none y' htkws] at heq
                have hRD : ∀ x ∈ (run ++ [c]) ++ y'.takeWhile isDigitChar,
                    isDigitChar x = true := by
                  intro x hx
                  rcases List.mem_append.mp hx with hx' | hx'
                  · exact hrun' x hx'
                  · exact List.mem_takeWhile_imp hx'
                cases hAe : y'.dropWhile isDigitChar with
                | nil =>
                    have hy'd : y'.takeWhile isDigitChar = y' := by
                      have h0 := List.takeWhile_append_dropWhile isDigitChar y'
                      rw [hAe, List.append_nil] at h0
                      exact h0
                    rw [hAe, List.nil_append] at heq
                    simp only [boundHead, restPart, List.append_nil]
                    cases ws with
                    | nil =>
                        simp only [boundHead, restPart, List.append_nil] at heq
                        simpa using heq
                    | cons s ws' =>
                        have hsw : isJsWordChar s = false :=
                          isJsWs_not_word (hws s (List.mem_cons_self _ _))
                        have hsd : isDigitChar s = false :=
                          isJsWs_not_digit (hws s (List.mem_cons_self _ _))
                        simp only [boundHead, restPart, hsw, Bool.not_false] at heq
                        rw [show c :: (y' ++ s :: ws') = (c :: y') ++ s :: ws' from by
                          simp [List.cons_append]] at heq
                        have hGd : ∀ x ∈ c :: y', isDigitChar x = true := by
                          intro x hx
                          rcases List.mem_cons.mp hx with rfl | hx'
                          · exact hd
                          · rw [← hy'd] at hx'
                            exact List.mem_takeWhile_imp hx'
                        have hFd : ∀ x ∈ flushRun ((run ++ [c]) ++ y'.takeWhile isDigitChar) true,
                            isDigitChar x = true :=
                          fun x hx => hRD x (mem_flushRun hx)
                        obtain ⟨e1, -, -⟩ := digit_block_eq _ _ hFd hGd hsd hsd heq
                        exact e1
                | cons a A' =>
                    have ha : isDigitChar a = false := head_dropWhile_false hAe
                    rw [hAe, List.cons_append] at heq
                    simp only [boundHead, restPart] at heq ⊢
                    have hy'e : y' = y'.takeWhile isDigitChar ++ a :: A' := by
                      have h0 := List.takeWhile_append_dropWhile isDigitChar y'
                      rw [hAe] at h0
                      exact h0.symm
                    have hrhs : c :: (y' ++ ws) =
                        (c :: y'.takeWhile isDigitChar) ++ a :: (A' ++ ws) := by
                      rw [List.cons_append]
                      conv_lhs => rw [hy'e]
                      simp [List.append_assoc]
                    rw [hrhs] at heq
                    have hFd : ∀ x ∈ flushRun ((run ++ [c]) ++ y'.takeWhile isDigitChar)
                        (!isJsWordChar a), isDigitChar x = true :=
                      fun x hx => hRD x (mem_flushRun hx)
                    have hGd : ∀ x ∈ c :: y'.takeWhile isDigitChar, isDigitChar x = true := by
                      intro x hx
                      rcases List.mem_cons.mp hx with rfl | hx'
                      · exact hd
                      · exact List.mem_takeWhile_imp hx'
                    obtain ⟨e1, -, e3⟩ := digit_block_eq _ _ hFd hGd ha ha heq
                    have hA' : A'.length ≤ n := by
                      have h1 : (y'.dropWhile isDigitChar).length ≤ y'.length :=
                        List.Sublist.length_le (List.dropWhile_sublist _)
                      rw [hAe] at h1
                      simp only [List.length_cons] at h1
                      omega
                    have hrec := ih A' hA' [] (isJsWordChar a) ws hws (by simp) e3
                    rw [e1, hrec, List.cons_append, ← hy'e]

theorem trimRight_decomp (x : List Char) :
    x = trimRight x ++ (x.reverse.takeWhile isJsWs).reverse := by
  unfold trimRight
  rw [← List.reverse_append, List.takeWhile_append_dropWhile, List.reverse_reverse]

theorem rep_trimRight_fix {x : List Char} (h : repAux [] false x = x) :
    repAux [] false (trimRight x) = trimRight x := by
  have hws : ∀ c ∈ (x.reverse.takeWhile isJsWs).reverse, isJsWs c = true := by
    intro c hc
    rw [List.mem_reverse] at hc
    exact List.mem_takeWhile_imp hc
  refine repAux_tail_ws (trimRight x).length (trimRight x) le_rfl [] false
    ((x.reverse.takeWhile isJsWs).reverse) hws (by simp) ?_
  rw [← trimRight_decomp x]
  exact h

theorem dropWhile_dropWhile {α} (p : α → Bool) (l : List α) :
    (l.dropWhile p).dropWhile p = l.dropWhile p := by
  cases hd : l.dropWhile p with
  | nil => rfl
  | cons a t =>
      rw [List.dropWhile_cons, if_neg (by simp [head_dropWhile_false hd])]

theorem trimLeft_idem (l : List Char) : trimLeft (trimLeft l) = trimLeft l :=
  dropWhile_dropWhile _ _

theorem trimRight_idem (l : List Char) : trimRight (trimRight l) = trimRight l := by
  unfold trimRight
  rw [List.reverse_reverse, dropWhile_dropWhile]

theorem trimLeft_trimRight_comm {x : List Char} (h : trimLeft x = x) :
    trimLeft (trimRight x) = trimRight x := by
  cases x with
  | nil => rfl
  | cons a t =>
      have ha : isJsWs a = false := by
        unfold trimLeft at h
        rw [List.dropWhile_cons] at h
        by_cases hp : isJsWs a = true
        · rw [if_pos hp] at h
          have hlen : (t.dropWhile isJsWs).length ≤ t.length :=
            List.Sublist.length_le (List.dropWhile_sublist _)
          have hcl := congrArg List.length h
          simp only [List.length_cons] at hcl
          omega
        · simpa using hp
      cases htr : trimRight (a :: t) with
      | nil => rfl
      | cons b bt =>
          have hd2 := trimRight_decomp (a :: t)
          rw [htr] at hd2
          simp only [List.cons_append] at hd2
          obtain ⟨h1, -⟩ := List.cons.inj hd2
          subst h1
          unfold trimLeft
          rw [List.dropWhile_cons, if_neg (by simp [ha])]

theorem mem_jsTrim {c : Char} {l : List Char} (h : c ∈ jsTrim l) : c ∈ l := by
  unfold jsTrim trimRight trimLeft at h
  rw [List.mem_reverse] at h
  have h1 : c ∈ (l.dropWhile isJsWs).reverse := (List.dropWhile_sublist isJsWs).subset h
  rw [List.mem_reverse] at h1
  exact (List.dropWhile_sublist isJsWs).subset h1

theorem normalize_core_idem {l : List Char} (hl : ∀ c ∈ l, lowChar c = c) :
    jsTrim (stripLeadingZeros ((jsTrim (stripLeadingZeros l)).map lowChar)) =
      jsTrim (stripLeadingZeros l) := by
  have hmem : ∀ c ∈ jsTrim (stripLeadingZeros l), lowChar c = c := by
    intro c hc
    have hc1 : c ∈ stripLeadingZeros l := mem_jsTrim hc
    have hc2 : c ∈ l := by
      rcases mem_repAux l [] false hc1 with h | h
      · simp at h
      · exact h
    exact hl c hc2
  rw [map_lowChar_fixed hmem]
  have hrep : repAux [] false (stripLeadingZeros l) = stripLeadingZeros l := repAux_idem l false
  have h1 : repAux [] false (trimLeft (stripLeadingZeros l)) = trimLeft (stripLeadingZeros l) :=
    rep_trimLeft_fix hrep
  have h2 : stripLeadingZeros (jsTrim (stripLeadingZeros l)) = jsTrim (stripLeadingZeros l) := by
    show repAux [] false (trimRight (trimLeft (stripLeadingZeros l))) =
      trimRight (trimLeft (stripLeadingZeros l))
    exact rep_trimRight_fix h1
  rw [h2]
  show trimRight (trimLeft (trimRight (trimLeft (stripLeadingZeros l)))) =
    jsTrim (stripLeadingZeros l)
  rw [trimLeft_trimRight_comm (trimLeft_idem _), trimRight_idem]
  rfl

/-- Claim C4 (confirmed): city normalization (lower-case, strip leading
zeros from word-bounded digit runs, trim) is idempotent on every string,
and it identifies the zero-padded district spellings: `Colombo 03`
normalizes like `Colombo 3` but not like `Colombo 7`. -/
theorem c4_normalize_idempotent (s : String) :
    normalizeCity (normalizeCity s) = normalizeCity s
    ∧ normalizeCity ("Colombo 03") = normalizeCity ("Colombo 3")
    ∧ normalizeCity ("Colombo 03") ≠ normalizeCity ("Colombo 7") := by
  refine ⟨?_, by decide, by decide⟩
  show String.mk (jsTrim (stripLeadingZeros
      ((jsTrim (stripLeadingZeros (s.data.map lowChar))).map lowChar))) =
    String.mk (jsTrim (stripLeadingZeros (s.data.map lowChar)))
  refine congrArg String.mk (normalize_core_idem ?_)
  intro c hc
  obtain ⟨c₀, -, rfl⟩ := List.mem_map.mp hc
  exact lowChar_idem c₀

end RealValue
